import Mathlib

/-!
Verification development for the salt-cp core (`salt/cli/cp.py`).

The definitions below are a shallow embedding of the Python source:
pure fragments become Lean functions, dictionaries become association
lists or point-updated functions, `sys.exit`/uncaught exceptions become
an `Except` error channel, and the external collaborators (filesystem,
remote executor, pub/sub broker) become explicit parameters.  The POSIX
branch is embedded (`os.sep = "/"`); the Windows flag is threaded where
the source consults it.
-/

/-! ## Generic helpers (dict / option plumbing) -/

/-- First-match association-list lookup (Python `dict` read). -/
def lookupA {α : Type} : List (String × α) → String → Option α
  | [], _ => none
  | (k, v) :: rest, w => if k = w then some v else lookupA rest w

/-- Association-list point write (Python `d[k] = v`): overwrite in place,
else append. -/
def setA {α : Type} : List (String × α) → String → α → List (String × α)
  | [], k, v => [(k, v)]
  | (k', v') :: rest, k, v =>
    if k' = k then (k, v) :: rest else (k', v') :: setA rest k v

/-- Python `base.update(upd)` on dicts, insertion order preserved. -/
def updateA {α : Type} (base upd : List (String × α)) : List (String × α) :=
  upd.foldl (fun acc p => setA acc p.1 p.2) base

/-- Left-biased choice on options. -/
def orE {α : Type} : Option α → Option α → Option α
  | some v, _ => some v
  | none, b => b

/-- Keep the first occurrence of each element (Python `set` insertion view). -/
def dedupGo (seen : List String) : List String → List String
  | [] => []
  | x :: xs => if x ∈ seen then dedupGo seen xs else x :: dedupGo (x :: seen) xs

/-- Lexicographic comparison of strings by code point, as Python compares `str`. -/
def charListLt : List Char → List Char → Bool
  | [], [] => false
  | [], _ :: _ => true
  | _ :: _, [] => false
  | a :: as, b :: bs => if a < b then true else if b < a then false else charListLt as bs

/-- Insert into a sorted list. -/
def insertSorted (x : String) : List String → List String
  | [] => [x]
  | y :: ys => if charListLt x.toList y.toList then x :: y :: ys else y :: insertSorted x ys

/-- Python `sorted(set(l))`. -/
def sortDedup (l : List String) : List String :=
  (dedupGo [] l).foldr insertSorted []

/-! ## POSIX path model (`os.path` functions used by the source) -/

/-- Python `str.split(sep)` for a one-character separator. -/
def splitChar (c : Char) : List Char → List (List Char)
  | [] => [[]]
  | x :: xs =>
    match splitChar c xs with
    | [] => [[]]
    | g :: gs => if x = c then [] :: g :: gs else (x :: g) :: gs

/-- String-level `str.split(sep)` for a one-character separator. -/
def splitStr (c : Char) (s : String) : List String :=
  (splitChar c s.toList).map (fun l => String.mk l)

/-- `os.path.basename` on POSIX: everything after the last slash. -/
def basename (p : String) : String :=
  ((splitStr '/' p).getLast?).getD ""

/-- `posixpath.join` for two components. -/
def join2 (a b : String) : String :=
  if b.toList.head? = some '/' then b
  else if a = "" ∨ a.toList.getLast? = some '/' then a ++ b
  else a ++ "/" ++ b

/-- `posixpath.join` for three components. -/
def join3 (a b c : String) : String := join2 (join2 a b) c

/-- Nonempty path components, as `posixpath.relpath` computes them. -/
def splitParts (p : String) : List String :=
  (splitStr '/' p).filter (· ≠ "")

/-- Length of the common prefix of two component lists
(`os.path.commonprefix` on lists). -/
def commonLen : List String → List String → Nat
  | a :: as, b :: bs => if a = b then commonLen as bs + 1 else 0
  | _, _ => 0

/-- Join nonempty components with slashes ("/".join). -/
def joinParts : List String → String
  | [] => ""
  | [x] => x
  | x :: y :: rest => x ++ "/" ++ joinParts (y :: rest)

/-- `posixpath.relpath(path, start)` for already-absolute, already-normal
inputs (the source only applies it to paths it built itself). -/
def relpath (path start : String) : String :=
  let pl := splitParts path
  let sl := splitParts start
  let i := commonLen sl pl
  let rel := List.replicate (sl.length - i) ".." ++ pl.drop i
  if rel.isEmpty then "." else joinParts rel

/-- Does `relpath fn (root + os.sep)` start with the parent marker
`'..' + os.sep`, i.e. the check `relpath.startswith(parent)` in
`run_chunked._get_remote_path`. -/
def climbsAbove (fn root : String) : Bool :=
  List.isPrefixOf ("../".toList) ((relpath fn (root ++ "/")).toList)

/-! ## Error channel and the collection phase (`SaltCP._mode`, `_recurse`,
`_list_files`, `_file_dict`, `_load_files`) -/

/-- How a code path leaves the process: `sys.exit(code)`, or an uncaught
Python exception propagating out. -/
inductive CPErr where
  | exit (code : Nat)
  | raised (e : String)
deriving DecidableEq

/-- Outcome of the `os.stat(path)` call inside `_mode`: the integer
`st_mode`, or an `OSError`. -/
inductive StatResult where
  | ok (st_mode : Nat)
  | osError (e : String)

/-- `SaltCP._mode`.  On Windows it returns `None` without calling
`os.stat`.  Otherwise it computes `int(oct(st_mode)[-4:], 8)`, which for an
integer `st_mode` is its low four octal digits, i.e. `st_mode % 4096`, and
that conversion cannot raise any of the caught `TypeError / IndexError /
ValueError`; an `OSError` raised by `os.stat` itself is not in the caught
tuple and propagates to the caller. -/
def cp_mode (isWin : Bool) (st : StatResult) : Except CPErr (Option Nat) :=
  if isWin then .ok none
  else
    match st with
    | .osError e => .error (.raised e)
    | .ok m => .ok (some (m % 4096))

mutual
/-- A filesystem node as `_recurse` can observe it through `os.listdir`:
a regular file (listing raises `EINVAL`/`ENOTDIR`), a directory with its
entries, or a path whose listing raises an `OSError` with any other errno
(the handler has no branch for it, so the exception is swallowed and the
node contributes nothing). -/
inductive FSNode where
  | file (st : StatResult)
  | dir (entries : FSEntries)
  | denied

/-- Directory entries, in `os.listdir` order. -/
inductive FSEntries where
  | nil
  | cons (name : String) (node : FSNode) (rest : FSEntries)
end

mutual
/-- `SaltCP._recurse` on an existing path: files map to `(path, mode)`
entries (the `_mode` call may raise), an empty directory records itself,
a nonempty directory recurses into its children joining names onto the
path. -/
def recurse (isWin : Bool) : String → FSNode → Except CPErr (List (String × Option Nat) × List String)
  | path, .file st =>
    match cp_mode isWin st with
    | .error e => .error e
    | .ok m => .ok ([(path, m)], [])
  | _, .denied => .ok ([], [])
  | path, .dir .nil => .ok ([], [path])
  | path, .dir (.cons n c rest) => recurseEntries isWin path (.cons n c rest)

/-- The `for fn_ in sub_paths` loop of `_recurse`: accumulate child
results left to right with `files.update` / `empty_dirs.extend`. -/
def recurseEntries (isWin : Bool) : String → FSEntries → Except CPErr (List (String × Option Nat) × List String)
  | _, .nil => .ok ([], [])
  | path, .cons n c rest =>
    match recurse isWin (join2 path n) c with
    | .error e => .error e
    | .ok (f1, d1) =>
      match recurseEntries isWin path rest with
      | .error e => .error e
      | .ok (f2, d2) => .ok (updateA f1 f2, d1 ++ d2)
end

/-- One top-level source in `_recurse`: a missing path (`os.listdir`
raises `ENOENT`) writes to stderr and calls `sys.exit(42)`. -/
def recurseRoot (isWin : Bool) : String × Option FSNode → Except CPErr (List (String × Option Nat) × List String)
  | (_, none) => .error (.exit 42)
  | (p, some n) => recurse isWin p n

/-- The accumulation loop of `SaltCP._list_files` over `opts['src']`. -/
def list_files_go (isWin : Bool) (acc : List (String × Option Nat) × List String) :
    List (String × Option FSNode) → Except CPErr (List (String × Option Nat) × List String)
  | [] => .ok (acc.1, sortDedup acc.2)
  | r :: rest =>
    match recurseRoot isWin r with
    | .error e => .error e
    | .ok (f, d) => list_files_go isWin (updateA acc.1 f, acc.2 ++ d) rest

/-- `SaltCP._list_files`: union the per-source results, returning the file
dict and `sorted(set(empty_dirs))`. -/
def list_files (isWin : Bool) (roots : List (String × Option FSNode)) :
    Except CPErr (List (String × Option Nat) × List String) :=
  list_files_go isWin ([], []) roots

/-- What a source argument looks like to `_load_files`: a regular file
with contents, a directory, or neither (`os.path.isfile` and
`os.path.isdir` both false, e.g. a missing path). -/
inductive SrcPath where
  | file (content : String)
  | dir
  | missing
deriving DecidableEq

/-- `SaltCP._file_dict`: a non-file argument writes to stderr and calls
`sys.exit(42)`; a file yields a one-entry path-to-contents dict. -/
def file_dict (fn : String) (k : SrcPath) : Except CPErr (List (String × String)) :=
  match k with
  | .file c => .ok [(fn, c)]
  | _ => .error (.exit 42)

/-- The loop of `SaltCP._load_files`: files are loaded via `_file_dict`,
a directory prints a hint and calls `sys.exit(1)`, and a path that is
neither file nor directory is silently skipped. -/
def load_files_go (acc : List (String × String)) :
    List (String × SrcPath) → Except CPErr (List (String × String))
  | [] => .ok acc
  | (fn, k) :: rest =>
    match k with
    | .file c =>
      match file_dict fn (.file c) with
      | .error e => .error e
      | .ok fs => load_files_go (updateA acc fs) rest
    | .dir => .error (.exit 1)
    | .missing => load_files_go acc rest

/-- `SaltCP._load_files`. -/
def load_files (srcs : List (String × SrcPath)) : Except CPErr (List (String × String)) :=
  load_files_go [] srcs

/-! ## Target-list file reading in `run_oldstyle_v1` -/

/-- Python `str.strip(c)` for a single strip character: drop leading and
trailing occurrences. -/
def stripCh (c : Char) (s : String) : String :=
  String.mk (((s.toList.dropWhile (· = c)).reverse.dropWhile (· = c)).reverse)

/-- How the `-X` target-file block of `run_oldstyle_v1` leaves the
program.  `exitWith` would be a controlled `sys.exit(code)`; it is never
produced, because the two `self.exit(2, ...)` calls are made on a
`SaltCP` instance and `SaltCP` (a plain `object` subclass) defines no
`exit` method, so each of those calls raises an `AttributeError` that no
surrounding handler catches (`raisedAttrError`).  The other outcomes are
an early `return` after printing the invalid-args hint, and a parsed
target list. -/
inductive TgtOutcome where
  | exitWith (code : Nat)
  | raisedAttrError
  | invalidArgs
  | targets (l : List String)
deriving DecidableEq

/-- The target-file block of `run_oldstyle_v1`: contents are stripped of
newlines then spaces; a comma or newline splits the remainder into a
target list; anything else prints the invalid-args hint and returns.  An
empty remainder reaches `self.exit(2, ...)` inside the `try`, and an
`IOError` while opening or reading reaches `self.exit(2, ...)` inside the
`except IOError` handler; both calls raise an uncaught `AttributeError`
(no `exit` attribute on `SaltCP`), which propagates out of
`run_oldstyle_v1` instead of performing a controlled exit. -/
def readTargetFile : Except String String → TgtOutcome
  | .error _ => .raisedAttrError
  | .ok raw =>
    let c := stripCh ' ' (stripCh '\n' raw)
    if c = "" then .raisedAttrError
    else if c.toList.contains ',' then .targets (splitStr ',' c)
    else if c.toList.contains '\n' then .targets (splitStr '\n' c)
    else .invalidArgs

/-! ## Chunked transfer engine (`SaltCP.run_chunked`) -/

/-- A per-node reply inside the dict returned by `local.cmd`: the source
only distinguishes `minion_ret is True` from everything else. -/
inductive MRet where
  | istrue
  | other (v : String)
deriving DecidableEq

/-- One `local.cmd` result: the per-node reply dict in iteration order.
An empty dict is falsy, which the source treats as a publish failure. -/
abbrev Replies := List (String × MRet)

/-- The aggregate result dict `ret`: `worker -> remote_path -> outcome`.
The remote-path key is optional because `_get_remote_path` can return
`None`, which Python happily uses as a dict key. -/
abbrev TRes := String → Option String → Option MRet

/-- The empty aggregate. -/
def emptyTRes : TRes := fun _ _ => none

/-- `ret.setdefault(minion, {})[remote_path] = v`. -/
def updRes (r : TRes) (mid : String) (rp : Option String) (v : MRet) : TRes :=
  fun m p => if m = mid ∧ p = rp then some v else r m p

/-- The synthetic message built on a publish failure, with the
partially-transferred sentence present exactly when `index > 1` and the
chunk-size hint interpolated. -/
def publishMsg (index csz : Nat) : String :=
  "Publish failed." ++ (if 1 < index then " File partially transferred." else "")
    ++ " It may be necessary to decrease salt_cp_chunk_size (current value: "
    ++ toString csz ++ ")"

/-- Handling of one `(minion_id, minion_ret)` pair of a chunk result:
write it into `ret`, and record it in `failed` if it is not `True` and the
minion has no recorded failure yet. -/
def recordReply (rp : Option String) (st : TRes × List (String × MRet)) (pr : String × MRet) :
    TRes × List (String × MRet) :=
  (updRes st.1 pr.1 rp pr.2,
   if pr.2 ≠ MRet.istrue ∧ lookupA st.2 pr.1 = none then st.2 ++ [(pr.1, pr.2)] else st.2)

/-- The `for chunk in reader(...)` loop of `run_chunked` for one file,
driven by the list of per-chunk call results: an empty (falsy) result
writes the synthetic publish-failure message for every resolved minion at
this remote path and breaks; otherwise every pair is recorded and the
index advances. -/
def runChunks (minions : List String) (csz : Nat) (rp : Option String) :
    List Replies → Nat → TRes → List (String × MRet) → TRes × List (String × MRet)
  | [], _, ret, failed => (ret, failed)
  | result :: rest, index, ret, failed =>
    if result.isEmpty then
      (minions.foldl (fun r m => updRes r m rp (MRet.other (publishMsg index csz))) ret, failed)
    else
      let st := result.foldl (recordReply rp) (ret, failed)
      runChunks minions csz rp rest (index + 1) st.1 st.2

/-- One file of `run_chunked`: run the chunk loop starting at index 1 with
an empty `failed` dict, then rewrite each minion's first failure over
whatever the last chunk left at this remote path. -/
def processFile (minions : List String) (csz : Nat) (rp : Option String)
    (chunks : List Replies) (ret : TRes) : TRes :=
  let st := runChunks minions csz rp chunks 1 ret []
  st.2.foldl (fun r pr => updRes r pr.1 rp pr.2) st.1

/-- Last character of a string, for the `re.search(r'[\\/]$', dest)`
test. -/
def endsInSep (dest : String) : Bool :=
  dest.toList.getLast? = some '/' ∨ dest.toList.getLast? = some '\\'

/-- The `dest_is_dir` computation at the top of `run_chunked`:
`bool(empty_dirs) or len(files) > 1 or bool(re.search(r'[\\/]$', dest))`. -/
def dest_is_dir (emptyDirs : List String) (nfiles : Nat) (dest : String) : Bool :=
  !emptyDirs.isEmpty || decide (1 < nfiles) || endsInSep dest

/-- The `for path in self.opts['src']` loop of `_get_remote_path`: skip
roots the file escapes from via a leading `../`, and map the first
remaining root; if the loop exhausts, log an error and return `None`. -/
def findSrcRoot (src : List String) (dest : String) (fn : String) : Option String :=
  match src with
  | [] => none
  | path :: rest =>
    if climbsAbove fn path then findSrcRoot rest dest fn
    else some (join3 dest (basename path) (relpath fn (path ++ "/")))

/-- `run_chunked._get_remote_path`: an explicit CLI source maps to
`join(dest, basename(fn))` when the destination is a directory and to
`dest` unchanged otherwise; any other file is attributed to a source
root. -/
def get_remote_path (src : List String) (dest : String) (d : Bool) (fn : String) : Option String :=
  if fn ∈ src then
    some (if d then join2 dest (basename fn) else dest)
  else findSrcRoot src dest fn

/-- One iteration of the file loop of `run_chunked`. -/
def processOneFile (src : List String) (dest : String) (d : Bool) (minions : List String)
    (csz : Nat) (oracle : String → List Replies) (ret : TRes) (f : String × Option Nat) : TRes :=
  processFile minions csz (get_remote_path src dest d f.1) (oracle f.1) ret

/-- The file loop of `run_chunked`, in dict iteration order. -/
def filesLoop (src : List String) (dest : String) (d : Bool) (minions : List String)
    (csz : Nat) (oracle : String → List Replies)
    (files : List (String × Option Nat)) (init : TRes) : TRes :=
  files.foldl (processOneFile src dest d minions csz oracle) init

/-- The trailing empty-directory loop of `run_chunked`: one
`cp.recv_chunked` call per directory, each reply recorded directly. -/
def dirsLoop (src : List String) (dest : String) (d : Bool)
    (dirOracle : String → Replies) (emptyDirs : List String) (init : TRes) : TRes :=
  emptyDirs.foldl
    (fun ret dn =>
      (dirOracle dn).foldl
        (fun r pr => updRes r pr.1 (get_remote_path src dest d dn) pr.2) ret)
    init

/-- `run_chunked` after collection: compute `dest_is_dir` once, run the
file loop, then the empty-directory loop.  The remote executor is
abstracted by `oracle` (per-chunk reply dicts for each file) and
`dirOracle` (the reply dict of each directory-creation call); `minions`
is the externally resolved target set. -/
def run_chunked_core (src : List String) (dest : String) (minions : List String) (csz : Nat)
    (oracle : String → List Replies) (dirOracle : String → Replies)
    (files : List (String × Option Nat)) (emptyDirs : List String) : TRes :=
  let d := dest_is_dir emptyDirs files.length dest
  dirsLoop src dest d dirOracle emptyDirs
    (filesLoop src dest d minions csz oracle files emptyTRes)

/-- `SaltCP.run_chunked` end to end: collect files and empty directories
from the filesystem, then aggregate transfer results. -/
def run_chunked (isWin : Bool) (roots : List (String × Option FSNode)) (dest : String)
    (minions : List String) (csz : Nat)
    (oracle : String → List Replies) (dirOracle : String → Replies) : Except CPErr TRes :=
  match list_files isWin roots with
  | .error e => .error e
  | .ok (files, emptyDirs) =>
    .ok (run_chunked_core (roots.map Prod.fst) dest minions csz oracle dirOracle files emptyDirs)

/-! ## FleetSyncBarrier (`SaltCP.run_oldstyle_v1` listen loop) -/

/-- The value found under the `type` key of a parsed control event.
Modelled from the spec: `salt.newrun.MessageType` is not under `src/`;
the spec fixes three distinct tags `Ping`, `Work`, `Interrupt`, and any
other tag falls into the `invalid callresult` print of the loop. -/
inductive CtrlType where
  | ping
  | work
  | interrupt
  | unknown (tag : String)
deriving DecidableEq

/-- The `cp_result` payload of a data event: JSON null or a per-worker
result map (association list). -/
abbrev CPRes := Option (List (String × String))

/-- The parsed shape of one `messageJson['data']` payload as the loop
body distinguishes them: a control dict with `type` and `sub_ip`, a data
dict without `type` carrying `cp_result`, a dict missing an expected key
(the `KeyError` is caught by the bare `except` and skipped), a parsed
non-dict (the `pass` branch), or text `json.loads` cannot parse (the
exception is caught, printed, and skipped). -/
inductive EventMsg where
  | control (t : CtrlType) (sub_ip : String)
  | data (cp : CPRes)
  | badShape
  | nonDict
  | unparseable
deriving DecidableEq

/-- One message from `redisChannel.listen()`: only frames whose outer
`type` is `'message'` carry a payload; everything else (subscribe
confirmations etc.) is skipped. -/
inductive RawMsg where
  | message (payload : EventMsg)
  | nonMessage
deriving DecidableEq

/-- The two counters of the barrier loop, with the source's names. -/
structure BarrierState where
  ping1stCount : Nat
  work1stcount : Nat
deriving DecidableEq

/-- The terminal equality tested inside the work/interrupt branch:
`ping1stCount == work1stcount and work1stcount == len(comeSubList)`. -/
def barrierCond (accepted : List String) (s : BarrierState) : Bool :=
  s.ping1stCount == s.work1stcount && s.work1stcount == accepted.length

/-- Python truthiness of a `cp_result` payload: null and the empty map
are falsy. -/
def truthyCP : CPRes → Bool
  | none => false
  | some l => !l.isEmpty

/-- Result of consuming one message: the updated counters, whether the
loop breaks, and the payload handed to `salt.output.display_output`, if
any. -/
structure StepRes where
  state : BarrierState
  didBreak : Bool
  displayed : Option CPRes
deriving DecidableEq

/-- One iteration of the `for message in redisChannel.listen()` body: a
`Ping` from an accepted worker bumps `ping1stCount`; a `Work` or
`Interrupt` bumps `work1stcount` and is the only place the terminal
equality is checked; a truthy data payload is displayed immediately;
everything else (unknown tags, malformed payloads, non-message frames)
is logged or printed and skipped. -/
def stepMsg (accepted : List String) (s : BarrierState) (m : RawMsg) : StepRes :=
  match m with
  | .nonMessage => ⟨s, false, none⟩
  | .message p =>
    match p with
    | .control t ip =>
      match t with
      | .ping =>
        if ip ∈ accepted then ⟨⟨s.ping1stCount + 1, s.work1stcount⟩, false, none⟩
        else ⟨s, false, none⟩
      | .work =>
        let s1 : BarrierState := ⟨s.ping1stCount, s.work1stcount + 1⟩
        ⟨s1, barrierCond accepted s1, none⟩
      | .interrupt =>
        let s1 : BarrierState := ⟨s.ping1stCount, s.work1stcount + 1⟩
        ⟨s1, barrierCond accepted s1, none⟩
      | .unknown _ => ⟨s, false, none⟩
    | .data cp => ⟨s, false, if truthyCP cp then some cp else none⟩
    | .badShape => ⟨s, false, none⟩
    | .nonDict => ⟨s, false, none⟩
    | .unparseable => ⟨s, false, none⟩

/-- Run the listen loop over a finite message prefix, returning the index
of the message at which `break` fires, or `none` if the loop is still
listening after the prefix. -/
def runLoopIdx (accepted : List String) : BarrierState → List RawMsg → Option Nat
  | _, [] => none
  | s, m :: rest =>
    let r := stepMsg accepted s m
    if r.didBreak then some 0 else (runLoopIdx accepted r.state rest).map (· + 1)

/-- Counter state after consuming a whole message list (ignoring
breaks), for stating what the tallies reach. -/
def stateAfter (accepted : List String) (s : BarrierState) (msgs : List RawMsg) : BarrierState :=
  msgs.foldl (fun st m => (stepMsg accepted st m).state) s

/-- Is the message a `Work` or `Interrupt` control event. -/
def isWorkOrInterrupt : RawMsg → Bool
  | .message (.control .work _) => true
  | .message (.control .interrupt _) => true
  | _ => false

/-- Position of the first message after whose processing the terminal
equality holds, regardless of the message's kind — the exit point claimed
by the specification. -/
def firstCondIdx (accepted : List String) : BarrierState → List RawMsg → Option Nat
  | _, [] => none
  | s, m :: rest =>
    let s1 := (stepMsg accepted s m).state
    if barrierCond accepted s1 then some 0
    else (firstCondIdx accepted s1 rest).map (· + 1)

/-- Position of the first `Work`/`Interrupt` message after whose
processing the terminal equality holds — the amended exit point. -/
def firstWorkCondIdx (accepted : List String) : BarrierState → List RawMsg → Option Nat
  | _, [] => none
  | s, m :: rest =>
    let s1 := (stepMsg accepted s m).state
    if isWorkOrInterrupt m && barrierCond accepted s1 then some 0
    else (firstWorkCondIdx accepted s1 rest).map (· + 1)

/-- Messages the loop can only skip: unparseable payloads, dicts missing
an expected key, parsed non-dicts, and control dicts with an unknown
type tag. -/
def isMalformed : RawMsg → Bool
  | .message .badShape => true
  | .message .nonDict => true
  | .message .unparseable => true
  | .message (.control (.unknown _) _) => true
  | _ => false

/-! ## Analysis functions (stated over the embedding, used by the
theorems) -/

/-- The first non-`True` reply for worker `w` in a flat pair list, in
recording order. -/
def firstFail (w : String) : List (String × MRet) → Option MRet
  | [] => none
  | pr :: rest => if pr.1 = w ∧ pr.2 ≠ MRet.istrue then some pr.2 else firstFail w rest

/-- The reply pairs the chunk loop actually records: everything up to,
and excluding, the first empty (publish-failed) chunk result. -/
def traversed : List Replies → List (String × MRet)
  | [] => []
  | c :: rest => if c.isEmpty then [] else c ++ traversed rest

theorem strAppend_assoc (a b c : String) : a ++ b ++ c = a ++ (b ++ c) := by
  cases a; cases b; cases c
  exact congrArg String.mk (List.append_assoc _ _ _)

theorem orE_none_right {α : Type} (a : Option α) : orE a none = a := by
  cases a <;> rfl

theorem orE_assoc {α : Type} (a b c : Option α) :
    orE (orE a b) c = orE a (orE b c) := by
  cases a <;> rfl

theorem updRes_at (r : TRes) (mid : String) (rp : Option String) (v : MRet) :
    updRes r mid rp v mid rp = some v := by
  simp [updRes]

theorem updRes_ne (r : TRes) (mid : String) (rp : Option String) (v : MRet)
    (m : String) (p : Option String) (h : ¬(m = mid ∧ p = rp)) :
    updRes r mid rp v m p = r m p := by
  simp only [updRes, if_neg h]

theorem lookupA_append {α : Type} (l1 l2 : List (String × α)) (w : String) :
    lookupA (l1 ++ l2) w = orE (lookupA l1 w) (lookupA l2 w) := by
  induction l1 with
  | nil => rfl
  | cons pr rest ih =>
    obtain ⟨k, v⟩ := pr
    by_cases h : k = w
    · simp [lookupA, h, orE]
    · simp [lookupA, h, ih]

theorem lookupA_none_iff {α : Type} (l : List (String × α)) (w : String) :
    lookupA l w = none ↔ w ∉ l.map Prod.fst := by
  induction l with
  | nil => simp [lookupA]
  | cons pr rest ih =>
    obtain ⟨k, v⟩ := pr
    by_cases h : k = w
    · simp [lookupA, h]
    · rw [List.map_cons]
      simp only [lookupA, if_neg h, ih, List.mem_cons, not_or]
      constructor
      · intro hnm
        exact ⟨fun he => h he.symm, hnm⟩
      · intro hp
        exact hp.2

theorem firstFail_append (w : String) (l1 l2 : List (String × MRet)) :
    firstFail w (l1 ++ l2) = orE (firstFail w l1) (firstFail w l2) := by
  induction l1 with
  | nil => rfl
  | cons pr rest ih =>
    by_cases h : pr.1 = w ∧ pr.2 ≠ MRet.istrue
    · simp [firstFail, h, orE]
    · simp [firstFail, h, ih]

theorem firstFail_ne_istrue (w : String) (l : List (String × MRet)) (r : MRet)
    (h : firstFail w l = some r) : r ≠ MRet.istrue := by
  induction l with
  | nil => simp [firstFail] at h
  | cons pr rest ih =>
    by_cases hc : pr.1 = w ∧ pr.2 ≠ MRet.istrue
    · simp [firstFail, hc] at h
      exact h ▸ hc.2
    · simp [firstFail, hc] at h
      exact ih h

theorem foldRecord_failed (rp : Option String) (w : String) (c : List (String × MRet)) :
    ∀ (ret : TRes) (failed : List (String × MRet)),
    lookupA ((c.foldl (recordReply rp) (ret, failed)).2) w
      = orE (lookupA failed w) (firstFail w c) := by
  induction c with
  | nil =>
    intro ret failed
    simp [firstFail, orE_none_right]
  | cons pr rest ih =>
    intro ret failed
    obtain ⟨k, v⟩ := pr
    rw [List.foldl_cons]
    have hrec : recordReply rp (ret, failed) (k, v)
        = (updRes ret k rp v,
           if v ≠ MRet.istrue ∧ lookupA failed k = none then failed ++ [(k, v)]
           else failed) := rfl
    rw [hrec, ih]
    by_cases hv : v = MRet.istrue
    · rw [if_neg (by simp [hv])]
      simp [firstFail, hv]
    · by_cases hk : k = w
      · subst hk
        by_cases hl : lookupA failed k = none
        · rw [if_pos ⟨hv, hl⟩, lookupA_append, hl]
          simp [lookupA, firstFail, hv, orE]
        · rw [if_neg (by simp [hl])]
          obtain ⟨u, hu⟩ := Option.ne_none_iff_exists'.mp hl
          rw [hu]
          simp [firstFail, hv, orE]
      · have hff : firstFail w ((k, v) :: rest) = firstFail w rest := by
          simp [firstFail, hk]
        rw [hff]
        by_cases hg2 : lookupA failed k = none
        · rw [if_pos ⟨hv, hg2⟩, lookupA_append]
          simp [lookupA, hk, orE_none_right]
        · rw [if_neg (by simp [hg2])]

theorem foldRecord_keys (rp : Option String) (c : List (String × MRet)) :
    ∀ (st : TRes × List (String × MRet)),
    (st.2.map Prod.fst).Nodup →
    (((c.foldl (recordReply rp) st).2).map Prod.fst).Nodup := by
  induction c with
  | nil =>
    intro st h
    exact h
  | cons pr rest ih =>
    intro st h
    rw [List.foldl_cons]
    apply ih
    simp only [recordReply]
    by_cases hg : pr.2 ≠ MRet.istrue ∧ lookupA st.2 pr.1 = none
    · rw [if_pos hg, List.map_append]
      simp only [List.map_cons, List.map_nil]
      rw [List.nodup_append]
      refine ⟨h, List.nodup_singleton _, ?_⟩
      intro a ha hb
      simp at hb
      subst hb
      exact ((lookupA_none_iff st.2 pr.1).mp hg.2) ha
    · rw [if_neg hg]
      exact h

theorem runChunks_failed (minions : List String) (csz : Nat) (rp : Option String)
    (w : String) (chunks : List Replies) :
    ∀ (idx : Nat) (ret : TRes) (failed : List (String × MRet)),
    lookupA ((runChunks minions csz rp chunks idx ret failed).2) w
      = orE (lookupA failed w) (firstFail w (traversed chunks)) := by
  induction chunks with
  | nil =>
    intro idx ret failed
    simp [runChunks, traversed, firstFail, orE_none_right]
  | cons c rest ih =>
    intro idx ret failed
    by_cases hc : c.isEmpty
    · simp [runChunks, hc, traversed, firstFail, orE_none_right]
    · simp only [runChunks, hc, if_neg, Bool.false_eq_true, if_false, traversed]
      rw [ih, foldRecord_failed, firstFail_append, orE_assoc]

theorem runChunks_keys (minions : List String) (csz : Nat) (rp : Option String)
    (chunks : List Replies) :
    ∀ (idx : Nat) (ret : TRes) (failed : List (String × MRet)),
    (failed.map Prod.fst).Nodup →
    (((runChunks minions csz rp chunks idx ret failed).2).map Prod.fst).Nodup := by
  induction chunks with
  | nil =>
    intro idx ret failed h
    exact h
  | cons c rest ih =>
    intro idx ret failed h
    by_cases hc : c.isEmpty
    · simpa [runChunks, hc] using h
    · simp only [runChunks, hc, Bool.false_eq_true, if_false]
      exact ih _ _ _ (foldRecord_keys rp c (ret, failed) h)

theorem rewriteFold_at (rp : Option String) (w : String) (failed : List (String × MRet)) :
    ∀ (ret : TRes), (failed.map Prod.fst).Nodup →
    (failed.foldl (fun r pr => updRes r pr.1 rp pr.2) ret) w rp
      = orE (lookupA failed w) (ret w rp) := by
  induction failed with
  | nil =>
    intro ret _
    rfl
  | cons pr rest ih =>
    intro ret h
    rw [List.foldl_cons]
    rw [List.map_cons, List.nodup_cons] at h
    rw [ih _ h.2]
    by_cases hk : pr.1 = w
    · subst hk
      have hrl : lookupA rest pr.1 = none :=
        (lookupA_none_iff rest pr.1).mpr h.1
      rw [hrl]
      simp [lookupA, updRes, orE]
    · have : lookupA ((pr.1, pr.2) :: rest) w = lookupA rest w := by
        simp [lookupA, hk]
      simp only [this]
      rw [updRes_ne _ _ _ _ _ _ (by intro hc; exact hk hc.1.symm)]

theorem processFile_at (minions : List String) (csz : Nat) (rp : Option String)
    (chunks : List Replies) (ret : TRes) (w : String) :
    processFile minions csz rp chunks ret w rp
      = orE (firstFail w (traversed chunks))
          ((runChunks minions csz rp chunks 1 ret []).1 w rp) := by
  unfold processFile
  rw [rewriteFold_at rp w _ _ (runChunks_keys minions csz rp chunks 1 ret [] (by simp))]
  rw [runChunks_failed]
  rfl

theorem foldMinions_ne (rp : Option String) (v : MRet) (l : List String) :
    ∀ (ret : TRes) (m : String) (p : Option String), (m ∉ l ∨ p ≠ rp) →
    (l.foldl (fun r m' => updRes r m' rp v) ret) m p = ret m p := by
  induction l with
  | nil =>
    intro ret m p _
    rfl
  | cons x xs ih =>
    intro ret m p h
    rw [List.foldl_cons]
    have h2 : m ∉ xs ∨ p ≠ rp := by
      cases h with
      | inl hm => exact Or.inl (fun hx => hm (List.mem_cons_of_mem x hx))
      | inr hp => exact Or.inr hp
    rw [ih _ _ _ h2]
    apply updRes_ne
    intro hc
    cases h with
    | inl hm => exact hm (hc.1 ▸ List.mem_cons_self x xs)
    | inr hp => exact hp hc.2

theorem foldMinions_at (rp : Option String) (v : MRet) (l : List String) :
    ∀ (ret : TRes) (m : String), m ∈ l →
    (l.foldl (fun r m' => updRes r m' rp v) ret) m rp = some v := by
  induction l with
  | nil =>
    intro ret m hm
    simp at hm
  | cons x xs ih =>
    intro ret m hm
    rw [List.foldl_cons]
    by_cases hx : m ∈ xs
    · exact ih _ _ hx
    · have hmx : m = x := by
        cases List.mem_cons.mp hm with
        | inl h => exact h
        | inr h => exact absurd h hx
      rw [foldMinions_ne rp v xs _ _ _ (Or.inl hx)]
      subst hmx
      exact updRes_at _ _ _ _

theorem runChunks_publish (minions : List String) (csz : Nat) (rp : Option String)
    (m : String) (hm : m ∈ minions) (rest : List Replies) (good : List Replies) :
    ∀ (idx : Nat) (ret : TRes) (failed : List (String × MRet)),
    (∀ c ∈ good, c.isEmpty = false) →
    (runChunks minions csz rp (good ++ [] :: rest) idx ret failed).1 m rp
      = some (MRet.other (publishMsg (idx + good.length) csz)) := by
  induction good with
  | nil =>
    intro idx ret failed _
    simp only [List.nil_append, runChunks, List.isEmpty_nil, if_true]
    exact foldMinions_at rp _ minions ret m hm
  | cons c good' ih =>
    intro idx ret failed hg
    have hc : c.isEmpty = false := hg c (List.mem_cons_self c good')
    simp only [List.cons_append, runChunks, hc, Bool.false_eq_true, if_false, List.append_eq]
    rw [ih _ _ _ (fun c' hc' => hg c' (List.mem_cons_of_mem c hc'))]
    have : idx + 1 + good'.length = idx + (good'.length + 1) := by omega
    rw [this]
    rfl

theorem runChunks_stops (minions : List String) (csz : Nat) (rp : Option String)
    (rest : List Replies) (good : List Replies) :
    ∀ (idx : Nat) (ret : TRes) (failed : List (String × MRet)),
    (∀ c ∈ good, c.isEmpty = false) →
    runChunks minions csz rp (good ++ [] :: rest) idx ret failed
      = runChunks minions csz rp (good ++ [[]]) idx ret failed := by
  induction good with
  | nil =>
    intro idx ret failed _
    simp [runChunks]
  | cons c good' ih =>
    intro idx ret failed hg
    have hc : c.isEmpty = false := hg c (List.mem_cons_self c good')
    simp only [List.cons_append, runChunks, hc, Bool.false_eq_true, if_false, List.append_eq]
    exact ih _ _ _ (fun c' hc' => hg c' (List.mem_cons_of_mem c hc'))

theorem traversed_flat (rest : List Replies) (good : List Replies)
    (hg : ∀ c ∈ good, c.isEmpty = false) :
    traversed (good ++ [] :: rest) = good.flatten := by
  induction good with
  | nil => simp [traversed]
  | cons c good' ih =>
    have hc : c.isEmpty = false := hg c (List.mem_cons_self c good')
    simp only [List.cons_append, traversed, hc, Bool.false_eq_true, if_false,
      List.flatten_cons, List.append_eq]
    rw [ih (fun c' hc' => hg c' (List.mem_cons_of_mem c hc'))]

theorem foldRecord_offpath (rp : Option String) (c : List (String × MRet)) :
    ∀ (st : TRes × List (String × MRet)) (m : String) (p : Option String), p ≠ rp →
    ((c.foldl (recordReply rp) st).1) m p = st.1 m p := by
  induction c with
  | nil =>
    intro st m p _
    rfl
  | cons pr rest ih =>
    intro st m p hp
    rw [List.foldl_cons, ih _ _ _ hp]
    exact updRes_ne _ _ _ _ _ _ (fun hc => hp hc.2)

theorem rewriteFold_offpath (rp : Option String) (failed : List (String × MRet)) :
    ∀ (ret : TRes) (m : String) (p : Option String), p ≠ rp →
    (failed.foldl (fun r pr => updRes r pr.1 rp pr.2) ret) m p = ret m p := by
  induction failed with
  | nil =>
    intro ret m p _
    rfl
  | cons pr rest ih =>
    intro ret m p hp
    rw [List.foldl_cons, ih _ _ _ hp]
    exact updRes_ne _ _ _ _ _ _ (fun hc => hp hc.2)

theorem runChunks_offpath (minions : List String) (csz : Nat) (rp : Option String)
    (chunks : List Replies) :
    ∀ (idx : Nat) (ret : TRes) (failed : List (String × MRet)) (m : String)
      (p : Option String), p ≠ rp →
    (runChunks minions csz rp chunks idx ret failed).1 m p = ret m p := by
  induction chunks with
  | nil =>
    intro idx ret failed m p _
    rfl
  | cons c rest ih =>
    intro idx ret failed m p hp
    by_cases hc : c.isEmpty
    · simp only [runChunks, hc, if_true]
      exact foldMinions_ne rp _ minions ret m p (Or.inr hp)
    · simp only [runChunks, hc, Bool.false_eq_true, if_false]
      rw [ih _ _ _ _ _ hp]
      exact foldRecord_offpath rp c _ _ _ hp

theorem processFile_offpath (minions : List String) (csz : Nat) (rp : Option String)
    (chunks : List Replies) (ret : TRes) (m : String) (p : Option String) (hp : p ≠ rp) :
    processFile minions csz rp chunks ret m p = ret m p := by
  unfold processFile
  rw [rewriteFold_offpath rp _ _ _ _ hp]
  exact runChunks_offpath minions csz rp chunks 1 ret [] m p hp

theorem stepMsg_break_iff (accepted : List String) (s : BarrierState) (m : RawMsg) :
    (stepMsg accepted s m).didBreak
      = (isWorkOrInterrupt m && barrierCond accepted (stepMsg accepted s m).state) := by
  cases m with
  | nonMessage => rfl
  | message p =>
    cases p with
    | control t ip =>
      cases t with
      | ping => by_cases h : ip ∈ accepted <;> simp [stepMsg, isWorkOrInterrupt, h]
      | work => simp [stepMsg, isWorkOrInterrupt]
      | interrupt => simp [stepMsg, isWorkOrInterrupt]
      | unknown tag => rfl
    | data cp => rfl
    | badShape => rfl
    | nonDict => rfl
    | unparseable => rfl

theorem runLoopIdx_eq_firstWorkCondIdx (accepted : List String) (msgs : List RawMsg) :
    ∀ (s : BarrierState), runLoopIdx accepted s msgs = firstWorkCondIdx accepted s msgs := by
  induction msgs with
  | nil =>
    intro s
    rfl
  | cons m rest ih =>
    intro s
    simp only [runLoopIdx, firstWorkCondIdx]
    rw [stepMsg_break_iff, ih]

theorem findSrcRoot_skip (dest fn : String) (pre : List String)
    (hpre : ∀ r ∈ pre, climbsAbove fn r = true) :
    ∀ (rest : List String), findSrcRoot (pre ++ rest) dest fn = findSrcRoot rest dest fn := by
  induction pre with
  | nil =>
    intro rest
    rfl
  | cons p0 pre' ih =>
    intro rest
    have h0 : climbsAbove fn p0 = true := hpre p0 (List.mem_cons_self p0 pre')
    simp only [List.cons_append, findSrcRoot, h0, if_true]
    exact ih (fun r hr => hpre r (List.mem_cons_of_mem p0 hr)) rest

theorem findSrcRoot_none (dest fn : String) (src : List String)
    (h : ∀ r ∈ src, climbsAbove fn r = true) :
    findSrcRoot src dest fn = none := by
  induction src with
  | nil => rfl
  | cons p0 rest ih =>
    have h0 : climbsAbove fn p0 = true := h p0 (List.mem_cons_self p0 rest)
    simp only [findSrcRoot, h0, if_true]
    exact ih (fun r hr => h r (List.mem_cons_of_mem p0 hr))

theorem publishMsg_cases (j c : Nat) :
    (1 < j → ∃ s, publishMsg j c = "Publish failed. File partially transferred." ++ s)
    ∧ (¬ 1 < j → publishMsg j c
        = "Publish failed. It may be necessary to decrease salt_cp_chunk_size (current value: "
          ++ toString c ++ ")") := by
  constructor
  · intro hj
    refine ⟨" It may be necessary to decrease salt_cp_chunk_size (current value: "
      ++ toString c ++ ")", ?_⟩
    unfold publishMsg
    rw [if_pos hj]
    simp only [strAppend_assoc]
    rfl
  · intro hj
    unfold publishMsg
    rw [if_neg hj]
    simp only [strAppend_assoc]
    rfl

/-! ## Claim theorems -/

/-- C1 counterexample: with `acceptedSet = ["w1"]` and the event sequence
`Work(w1), Ping(w1)`, the terminal equality `pingCount == workCount ==
|acceptedSet|` first holds right after the second event (the `Ping`), yet
the loop does not exit there or anywhere: the equality is only checked in
the `Work`/`Interrupt` branch, so the claimed exit point (the first event
after which the equality holds) is wrong. -/
theorem c1_counterexample :
    runLoopIdx ["w1"] ⟨0, 0⟩
      [.message (.control .work "w1"), .message (.control .ping "w1")] = none
    ∧ firstCondIdx ["w1"] ⟨0, 0⟩
      [.message (.control .work "w1"), .message (.control .ping "w1")] = some 1
    ∧ barrierCond ["w1"] (stateAfter ["w1"] ⟨0, 0⟩
      [.message (.control .work "w1"), .message (.control .ping "w1")]) = true :=
  ⟨rfl, rfl, rfl⟩

/-- C1 (corrected): the barrier loop exits exactly at the first
`Work`/`Interrupt` event after whose processing `pingCount == workCount`
and `workCount == |acceptedSet|` hold; the equality is checked only in
that branch, so it can hold after a `Ping` without ending the loop.  The
spec's example (`acceptedSet = two workers`, events `Ping(w1), Ping(w2),
Work(w1), Work(w2)`) still exits exactly at `Work(w2)`, index 3. -/
theorem c1_exit_only_at_work_events :
    (∀ (accepted : List String) (s : BarrierState) (msgs : List RawMsg),
      runLoopIdx accepted s msgs = firstWorkCondIdx accepted s msgs)
    ∧ runLoopIdx ["w1", "w2"] ⟨0, 0⟩
        [.message (.control .ping "w1"), .message (.control .ping "w2"),
         .message (.control .work "w1"), .message (.control .work "w2")] = some 3 :=
  ⟨fun accepted msgs s => runLoopIdx_eq_firstWorkCondIdx accepted s msgs, rfl⟩

/-- C7 (confirmed): a `Ping` increments `ping1stCount` exactly when its
`sub_ip` is in the accepted list, a `Work` or `Interrupt` increments
`work1stcount` unconditionally, no per-worker de-duplication exists, and
with `acceptedSet = ["w1"]` the events `Ping(w1), Ping(w1), Work(w1)`
reach counters `(2, 1)` without the loop ever terminating. -/
theorem c7_event_counting :
    (∀ (accepted : List String) (s : BarrierState) (ip : String), ip ∈ accepted →
       stepMsg accepted s (.message (.control .ping ip))
         = ⟨⟨s.ping1stCount + 1, s.work1stcount⟩, false, none⟩)
    ∧ (∀ (accepted : List String) (s : BarrierState) (ip : String), ip ∉ accepted →
       stepMsg accepted s (.message (.control .ping ip)) = ⟨s, false, none⟩)
    ∧ (∀ (accepted : List String) (s : BarrierState) (ip : String),
       (stepMsg accepted s (.message (.control .work ip))).state
         = ⟨s.ping1stCount, s.work1stcount + 1⟩)
    ∧ (∀ (accepted : List String) (s : BarrierState) (ip : String),
       (stepMsg accepted s (.message (.control .interrupt ip))).state
         = ⟨s.ping1stCount, s.work1stcount + 1⟩)
    ∧ stateAfter ["w1"] ⟨0, 0⟩
        [.message (.control .ping "w1"), .message (.control .ping "w1"),
         .message (.control .work "w1")] = ⟨2, 1⟩
    ∧ runLoopIdx ["w1"] ⟨0, 0⟩
        [.message (.control .ping "w1"), .message (.control .ping "w1"),
         .message (.control .work "w1")] = none := by
  refine ⟨?_, ?_, ?_, ?_, rfl, rfl⟩
  · intro accepted s ip h
    simp [stepMsg, h]
  · intro accepted s ip h
    simp [stepMsg, h]
  · intro accepted s ip
    rfl
  · intro accepted s ip
    rfl

/-- C7 witness: the counting laws applied at concrete inputs. -/
theorem c7_event_counting_witness :
    stepMsg ["w1"] ⟨0, 0⟩ (.message (.control .ping "w1")) = ⟨⟨1, 0⟩, false, none⟩
    ∧ stepMsg ["w1"] ⟨0, 0⟩ (.message (.control .ping "w2")) = ⟨⟨0, 0⟩, false, none⟩ :=
  ⟨c7_event_counting.1 ["w1"] ⟨0, 0⟩ "w1" (by decide),
   c7_event_counting.2.1 ["w1"] ⟨0, 0⟩ "w2" (by decide)⟩

/-- C9 (confirmed): a message whose payload fails to parse or has an
unexpected shape leaves the counters unchanged, displays nothing, never
breaks the loop, and the loop continues with the remaining messages (the
bare `except` handlers print a traceback and fall through). -/
theorem c9_decode_resilience :
    ∀ (accepted : List String) (s : BarrierState) (m : RawMsg) (rest : List RawMsg),
    isMalformed m = true →
    stepMsg accepted s m = ⟨s, false, none⟩
    ∧ runLoopIdx accepted s (m :: rest) = (runLoopIdx accepted s rest).map (· + 1) := by
  intro accepted s m rest h
  have hstep : stepMsg accepted s m = ⟨s, false, none⟩ := by
    cases m with
    | nonMessage => rfl
    | message p =>
      cases p with
      | control t ip =>
        cases t with
        | ping => simp [isMalformed] at h
        | work => simp [isMalformed] at h
        | interrupt => simp [isMalformed] at h
        | unknown tag => rfl
      | data cp => simp [isMalformed] at h
      | badShape => rfl
      | nonDict => rfl
      | unparseable => rfl
  refine ⟨hstep, ?_⟩
  simp [runLoopIdx, hstep]

/-- C9 witness: an unparseable payload followed by a work event. -/
theorem c9_decode_resilience_witness :
    stepMsg ["w1"] ⟨0, 0⟩ (.message .unparseable) = ⟨⟨0, 0⟩, false, none⟩
    ∧ runLoopIdx ["w1"] ⟨0, 0⟩
        [.message .unparseable, .message (.control .work "w1")]
      = (runLoopIdx ["w1"] ⟨0, 0⟩ [.message (.control .work "w1")]).map (· + 1) :=
  c9_decode_resilience ["w1"] ⟨0, 0⟩ (.message .unparseable)
    [.message (.control .work "w1")] (by decide)

/-- C10 (confirmed): a data event (a parsed dict without a `type` key) is
forwarded to the output sink exactly when its `cp_result` payload is
truthy; a null payload and an empty map are falsy and are silently
dropped, with state untouched and the loop not terminated. -/
theorem c10_data_event_filtering :
    ∀ (accepted : List String) (s : BarrierState) (cp : CPRes),
    stepMsg accepted s (.message (.data cp))
      = ⟨s, false, if truthyCP cp then some cp else none⟩
    ∧ truthyCP none = false
    ∧ truthyCP (some []) = false
    ∧ (∀ (pr : String × String) (l : List (String × String)),
        truthyCP (some (pr :: l)) = true) :=
  fun _ _ _ => ⟨rfl, rfl, rfl, fun _ _ => rfl⟩

/-- C4 (confirmed): an explicit CLI source maps to
`join(dest, basename(p))` when the destination is a directory and to
`dest` otherwise; a nested file maps through the first source root whose
relative path does not start with a parent-reference segment, to
`join(dest, basename(root), relpath)`; when every root's relative path
escapes, the resolver returns `None` (the file is logged and omitted
rather than resolved outside the destination tree); and the file
`/b/c/x/y` under roots `[/a, /b/c]` with destination `/out/` resolves to
`/out/c/x/y`. -/
theorem c4_remote_path_resolution :
    (∀ (src : List String) (dest : String) (d : Bool) (fn : String), fn ∈ src →
       get_remote_path src dest d fn
         = some (if d then join2 dest (basename fn) else dest))
    ∧ (∀ (src : List String) (dest : String) (d : Bool) (fn : String)
         (pre : List String) (r : String) (post : List String),
        src = pre ++ r :: post → fn ∉ src →
        (∀ r' ∈ pre, climbsAbove fn r' = true) → climbsAbove fn r = false →
        get_remote_path src dest d fn
          = some (join3 dest (basename r) (relpath fn (r ++ "/"))))
    ∧ (∀ (src : List String) (dest : String) (d : Bool) (fn : String),
        fn ∉ src → (∀ r ∈ src, climbsAbove fn r = true) →
        get_remote_path src dest d fn = none)
    ∧ get_remote_path ["/a", "/b/c"] "/out/" true "/b/c/x/y" = some "/out/c/x/y" := by
  refine ⟨?_, ?_, ?_, by decide⟩
  · intro src dest d fn h
    simp only [get_remote_path, if_pos h]
  · intro src dest d fn pre r post hsrc hfn hpre hr
    subst hsrc
    simp only [get_remote_path, if_neg hfn]
    rw [findSrcRoot_skip dest fn pre hpre]
    simp only [findSrcRoot, hr, Bool.false_eq_true, if_false]
  · intro src dest d fn hfn hall
    simp only [get_remote_path, if_neg hfn]
    exact findSrcRoot_none dest fn src hall

/-- C4 witness: the resolution laws applied at concrete inputs. -/
theorem c4_remote_path_resolution_witness :
    get_remote_path ["/a", "/b/c"] "/out/" true "/b/c/x/y"
      = some (join3 "/out/" (basename "/b/c") (relpath "/b/c/x/y" ("/b/c" ++ "/")))
    ∧ get_remote_path ["/a"] "/out/" true "/a" = some (join2 "/out/" (basename "/a"))
    ∧ get_remote_path ["/a"] "/x" false "/b" = none := by
  refine ⟨?_, ?_, ?_⟩
  · exact c4_remote_path_resolution.2.1 ["/a", "/b/c"] "/out/" true "/b/c/x/y"
      ["/a"] "/b/c" [] rfl (by decide) (by decide) (by decide)
  · exact c4_remote_path_resolution.1 ["/a"] "/out/" true "/a" (by decide)
  · exact c4_remote_path_resolution.2.2.1 ["/a"] "/x" false "/b" (by decide) (by decide)

/-- C2 counterexample: two explicit file sources `/a/f` and `/b/f` share
the basename `f`, so with two files `dest_is_dir` is true and both
resolve to the remote path `dst/f`.  Worker `w1` gets a non-success
reply for `dst/f` while the first file is transferred (third conjunct),
yet the aggregate returned by the whole `run_chunked` operation records
success for `(w1, dst/f)` (second conjunct): the later file's successful
chunk result overwrote the recorded error, so first-failure stickiness
does not hold at operation scope. -/
theorem c2_counterexample :
    list_files false [("/a/f", some (.file (.ok 0))), ("/b/f", some (.file (.ok 0)))]
      = .ok ([("/a/f", some 0), ("/b/f", some 0)], [])
    ∧ (match run_chunked false
          [("/a/f", some (.file (.ok 0))), ("/b/f", some (.file (.ok 0)))] "dst" ["w1"] 100
          (fun fn => if fn = "/a/f" then [[("w1", MRet.other "boom")]] else [[("w1", MRet.istrue)]])
          (fun _ => []) with
        | .ok res => res "w1" (some "dst/f")
        | .error _ => none) = some MRet.istrue
    ∧ filesLoop ["/a/f", "/b/f"] "dst" true ["w1"] 100
        (fun fn => if fn = "/a/f" then [[("w1", MRet.other "boom")]] else [[("w1", MRet.istrue)]])
        [("/a/f", some 0)] emptyTRes "w1" (some "dst/f") = some (MRet.other "boom") :=
  ⟨rfl, rfl, rfl⟩

/-- C2 (corrected): first-failure stickiness holds per file, not per
operation: within the transfer of one file, once a worker's first
non-success chunk reply is recorded, the file's final recorded outcome
for that worker at the file's remote path is exactly that first failure
(and it is not a success), regardless of later successful chunks of the
same file; a later file that resolves to the same remote path starts
fresh and can overwrite it. -/
theorem c2_sticky_per_file (minions : List String) (csz : Nat) (rp : Option String)
    (chunks : List Replies) (ret : TRes) (w : String) (r : MRet)
    (h : firstFail w (traversed chunks) = some r) :
    processFile minions csz rp chunks ret w rp = some r ∧ r ≠ MRet.istrue := by
  constructor
  · rw [processFile_at, h]
    rfl
  · exact firstFail_ne_istrue w _ r h

/-- C2 witness: chunk 2 of 3 fails for worker `W`, chunks 1 and 3
succeed; the final outcome is chunk 2's error. -/
theorem c2_sticky_per_file_witness :
    processFile ["W"] 10 (some "/etc/f")
      [[("W", MRet.istrue)], [("W", MRet.other "chunk2 error")], [("W", MRet.istrue)]]
      emptyTRes "W" (some "/etc/f") = some (MRet.other "chunk2 error") :=
  (c2_sticky_per_file ["W"] 10 (some "/etc/f")
    [[("W", MRet.istrue)], [("W", MRet.other "chunk2 error")], [("W", MRet.istrue)]]
    emptyTRes "W" (MRet.other "chunk2 error") (by decide)).1

/-- C6 (confirmed): when the call for a chunk returns no per-node replies
(an empty, falsy dict), every resolved minion without an earlier recorded
failure for this file ends the file with the synthetic publish-failure
message at the file's remote path, every resolved minion's final outcome
is a non-success, the remaining chunks of the file are never consumed,
entries at other remote paths are untouched, the message mentions the
partial transfer exactly when the failing chunk index exceeds 1 and
always suggests decreasing `salt_cp_chunk_size`, and the file loop
continues with the remaining files. -/
theorem c6_publish_failure (minions : List String) (csz : Nat) (rp : Option String)
    (good rest : List Replies) (ret : TRes)
    (hg : ∀ c ∈ good, c.isEmpty = false) :
    (∀ m ∈ minions, firstFail m good.flatten = none →
       processFile minions csz rp (good ++ [] :: rest) ret m rp
         = some (MRet.other (publishMsg (1 + good.length) csz)))
    ∧ (∀ m ∈ minions,
        processFile minions csz rp (good ++ [] :: rest) ret m rp ≠ some MRet.istrue)
    ∧ processFile minions csz rp (good ++ [] :: rest) ret
        = processFile minions csz rp (good ++ [[]]) ret
    ∧ (∀ (m : String) (p : Option String), p ≠ rp →
        processFile minions csz rp (good ++ [] :: rest) ret m p = ret m p)
    ∧ (∀ (j : Nat),
        (1 < j → ∃ s, publishMsg j csz
          = "Publish failed. File partially transferred." ++ s)
        ∧ (¬ 1 < j → publishMsg j csz
          = "Publish failed. It may be necessary to decrease salt_cp_chunk_size (current value: "
            ++ toString csz ++ ")"))
    ∧ (∀ (src : List String) (dest : String) (d : Bool)
         (oracle : String → List Replies) (f : String × Option Nat)
         (fs : List (String × Option Nat)) (init : TRes),
        filesLoop src dest d minions csz oracle (f :: fs) init
          = filesLoop src dest d minions csz oracle fs
              (processOneFile src dest d minions csz oracle init f)) := by
  refine ⟨?_, ?_, ?_, ?_, fun j => publishMsg_cases j csz, fun _ _ _ _ _ _ _ => rfl⟩
  · intro m hm hff
    rw [processFile_at, traversed_flat rest good hg, hff]
    show (runChunks minions csz rp (good ++ [] :: rest) 1 ret []).1 m rp = _
    rw [runChunks_publish minions csz rp m hm rest good 1 ret [] hg]
  · intro m hm
    rw [processFile_at, traversed_flat rest good hg]
    cases hf : firstFail m good.flatten with
    | none =>
      show (runChunks minions csz rp (good ++ [] :: rest) 1 ret []).1 m rp ≠ _
      rw [runChunks_publish minions csz rp m hm rest good 1 ret [] hg]
      simp
    | some u =>
      have hu : u ≠ MRet.istrue := firstFail_ne_istrue m _ u hf
      simp only [orE]
      intro hcontra
      exact hu (Option.some_injective _ hcontra)
  · unfold processFile
    rw [runChunks_stops minions csz rp rest good 1 ret [] hg]
  · intro m p hp
    exact processFile_offpath minions csz rp _ ret m p hp

/-- C6 witness: one good chunk, then a publish failure at chunk 2;
the synthetic message lands for the minion and later chunks are cut. -/
theorem c6_publish_failure_witness :
    processFile ["m1"] 64 (some "/p")
      ([[("m1", MRet.istrue)]] ++ [] :: [[("m1", MRet.istrue)]]) emptyTRes
      "m1" (some "/p") = some (MRet.other (publishMsg 2 64)) :=
  (c6_publish_failure ["m1"] 64 (some "/p") [[("m1", MRet.istrue)]]
    [[("m1", MRet.istrue)]] emptyTRes (by decide)).1 "m1" (by decide) (by decide)

/-- C8 counterexample: `_mode` on a POSIX platform with `os.stat` raising
an `OSError` does not return an absent mode — the exception escapes, and
it escapes `_recurse` (the collection phase) as well, contradicting the
claim that reading the mode never fails the operation. -/
theorem c8_counterexample :
    cp_mode false (.osError "EACCES") = .error (.raised "EACCES")
    ∧ recurse false "/f" (.file (.osError "EACCES")) = .error (.raised "EACCES") :=
  ⟨rfl, rfl⟩

/-- C8 (corrected): on Windows `_mode` returns no mode without touching
the filesystem; on POSIX a successful `stat` always yields the low four
octal digits of `st_mode` (the caught conversion errors cannot occur for
an integer `st_mode`, so no mode is ever silently dropped there); but an
`OSError` raised by `os.stat` itself is not caught and propagates out of
`_mode` and out of the collection phase. -/
theorem c8_mode_amended :
    (∀ (st : StatResult), cp_mode true st = .ok none)
    ∧ (∀ (m : Nat), cp_mode false (.ok m) = .ok (some (m % 4096)))
    ∧ (∀ (e : String), cp_mode false (.osError e) = .error (.raised e))
    ∧ (∀ (isWin : Bool) (p : String) (e : String),
        recurse isWin p (.file (.osError e))
          = if isWin then .ok ([(p, none)], []) else .error (.raised e)) := by
  refine ⟨fun st => rfl, fun m => rfl, fun e => rfl, ?_⟩
  intro isWin p e
  cases isWin <;> rfl

theorem list_files_go_exit42 (isWin : Bool) (p : String)
    (post : List (String × Option FSNode)) (pre : List (String × Option FSNode)) :
    ∀ (acc : List (String × Option Nat) × List String),
    (∀ r ∈ pre, ∃ v, recurseRoot isWin r = Except.ok v) →
    list_files_go isWin acc (pre ++ (p, none) :: post) = .error (.exit 42) := by
  induction pre with
  | nil =>
    intro acc _
    rfl
  | cons r0 pre' ih =>
    intro acc hpre
    obtain ⟨v, hv⟩ := hpre r0 (List.mem_cons_self r0 pre')
    obtain ⟨f, d⟩ := v
    rw [List.cons_append]
    simp only [list_files_go, hv]
    exact ih _ (fun r hr => hpre r (List.mem_cons_of_mem r0 hr))

theorem load_files_go_exit1 (fn : String) (post : List (String × SrcPath))
    (pre : List (String × SrcPath)) :
    ∀ (acc : List (String × String)),
    (∀ e ∈ pre, e.2 ≠ SrcPath.dir) →
    load_files_go acc (pre ++ (fn, SrcPath.dir) :: post) = .error (.exit 1) := by
  induction pre with
  | nil =>
    intro acc _
    rfl
  | cons e0 pre' ih =>
    intro acc hpre
    obtain ⟨g, k⟩ := e0
    rw [List.cons_append]
    cases k with
    | file c =>
      simp only [load_files_go, file_dict]
      exact ih _ (fun e he => hpre e (List.mem_cons_of_mem (g, .file c) he))
    | dir =>
      exact absurd rfl (hpre (g, .dir) (List.mem_cons_self _ pre'))
    | missing =>
      simp only [load_files_go]
      exact ih _ (fun e he => hpre e (List.mem_cons_of_mem (g, .missing) he))

/-- C3 counterexample: an empty target-list file does not exit with code
42 — `run_oldstyle_v1` reaches `self.exit(2, ...)`, but `SaltCP` defines
no `exit` method, so that call raises an `AttributeError` that the
`except IOError` handler does not catch: the process crashes with an
uncaught exception instead of performing any controlled exit. -/
theorem c3_counterexample :
    readTargetFile (.ok "") = .raisedAttrError
    ∧ readTargetFile (.ok "") ≠ .exitWith 42 :=
  ⟨rfl, by decide⟩

/-- C3 (corrected): a missing top-level source exits 42 in the chunked
collection path (`_recurse`, and `_file_dict` for a vanished file), while
the non-chunked loader silently skips a path that is neither file nor
directory; a directory supplied without chunked mode exits 1; and both
the empty-target-list branch and the `IOError` branch reach
`self.exit(2, ...)`, which raises an uncaught `AttributeError` because
`SaltCP` has no `exit` method — neither branch exits with 42, nor with
any controlled code. -/
theorem c3_exit_codes :
    (∀ (isWin : Bool) (p : String), recurseRoot isWin (p, none) = .error (.exit 42))
    ∧ (∀ (isWin : Bool) (pre : List (String × Option FSNode)) (p : String)
         (post : List (String × Option FSNode)) (acc : List (String × Option Nat) × List String),
        (∀ r ∈ pre, ∃ v, recurseRoot isWin r = Except.ok v) →
        list_files_go isWin acc (pre ++ (p, none) :: post) = .error (.exit 42))
    ∧ (∀ (fn : String), file_dict fn SrcPath.dir = .error (.exit 42)
        ∧ file_dict fn SrcPath.missing = .error (.exit 42))
    ∧ (∀ (pre : List (String × SrcPath)) (fn : String) (post : List (String × SrcPath))
         (acc : List (String × String)),
        (∀ e ∈ pre, e.2 ≠ SrcPath.dir) →
        load_files_go acc (pre ++ (fn, SrcPath.dir) :: post) = .error (.exit 1))
    ∧ (∀ (fn : String) (rest : List (String × SrcPath)) (acc : List (String × String)),
        load_files_go acc ((fn, SrcPath.missing) :: rest) = load_files_go acc rest)
    ∧ (∀ (e : String), readTargetFile (.error e) = .raisedAttrError)
    ∧ (∀ (raw : String), stripCh ' ' (stripCh '\n' raw) = "" →
        readTargetFile (.ok raw) = .raisedAttrError) := by
  refine ⟨fun _ _ => rfl, ?_, fun fn => ⟨rfl, rfl⟩, ?_, fun _ _ _ => rfl, fun _ => rfl, ?_⟩
  · intro isWin pre p post acc hpre
    exact list_files_go_exit42 isWin p post pre acc hpre
  · intro pre fn post acc hpre
    exact load_files_go_exit1 fn post pre acc hpre
  · intro raw h
    simp [readTargetFile, h]

/-- C3 witness: the exit-code laws applied at concrete inputs. -/
theorem c3_exit_codes_witness :
    list_files_go false ([], []) ([("/ok", some (.file (.ok 420)))] ++ ("/gone", none) :: [])
      = .error (.exit 42)
    ∧ load_files_go [] ([("/a", SrcPath.file "x")] ++ ("/d", SrcPath.dir) :: [])
      = .error (.exit 1)
    ∧ readTargetFile (.ok " ") = .raisedAttrError := by
  refine ⟨?_, ?_, ?_⟩
  · exact c3_exit_codes.2.1 false [("/ok", some (.file (.ok 420)))] "/gone" [] ([], [])
      (by intro r hr; simp at hr; subst hr; exact ⟨([("/ok", some 420)], []), rfl⟩)
  · exact c3_exit_codes.2.2.2.1 [("/a", SrcPath.file "x")] "/d" [] []
      (by intro e he; simp at he; subst he; decide)
  · exact c3_exit_codes.2.2.2.2.2.2 " " (by decide)
